import Mathlib

/-!
Shallow embedding of the realtime-geops-api vehicle-tracking core
(`GeopsApiService` and the helpers in `types/geops.ts`).

Numbers are modelled by `ℚ` (idealised JS numbers); JS array indexing is
modelled by `jsGet`, which returns `none` for a negative or out-of-bounds
index (where the original code would read `undefined` and crash on the
subsequent tuple access).  Fallible functions return `Option`.
-/

/-- A position produced by the interpolator: `{x, y, rotation}`. -/
structure Pos where
  x : ℚ
  y : ℚ
  rotation : ℚ
deriving DecidableEq, Repr

/-- `TimeInterval = [timestamp_ms, fraction_along_line, rotation_radians]`. -/
structure TimeInterval where
  ts : ℚ
  frac : ℚ
  heading : ℚ
deriving DecidableEq, Repr

/-- JS array read `l[i]`: `undefined` (here `none`) when `i` is negative or
past the end of the array. -/
def jsGet {α : Type} (l : List α) (i : ℤ) : Option α :=
  if 0 ≤ i then l.get? i.toNat else none

/-- Loop body of `findTimeIntervals`: walk the intervals in order, remembering
the last one with `ts ≤ now` as `prev`; stop at the first one with `ts > now`,
which becomes `next`. -/
def findTIGo : List TimeInterval → ℚ → Option TimeInterval →
    Option TimeInterval × Option TimeInterval
  | [], _, prev => (prev, none)
  | i :: rest, now, prev =>
      if i.ts ≤ now then findTIGo rest now (some i) else (prev, some i)

/-- `findTimeIntervals(timeIntervals, now)` from the service. -/
def findTimeIntervals (tis : List TimeInterval) (now : ℚ) :
    Option TimeInterval × Option TimeInterval :=
  findTIGo tis now none

/-- `getPositionAtFraction(coords, fraction, rotation)`:
`idx = min(floor(fraction * (coords.length - 1)), coords.length - 1)` and
return the coordinate at `idx` with the given rotation. -/
def getPositionAtFraction (coords : List (ℚ × ℚ)) (fraction rotation : ℚ) :
    Option Pos :=
  let n1 : ℤ := (coords.length : ℤ) - 1
  let idx : ℤ := min ⌊fraction * (n1 : ℚ)⌋ n1
  (jsGet coords idx).map (fun c => ⟨c.1, c.2, rotation⟩)

/-- `interpolateBetweenIntervals(coords, prev, next, now)`. -/
def interpolateBetweenIntervals (coords : List (ℚ × ℚ))
    (prev next : TimeInterval) (now : ℚ) : Option Pos :=
  let timeDiff := next.ts - prev.ts
  let timeProgress := if 0 < timeDiff then (now - prev.ts) / timeDiff else 0
  let fraction := prev.frac + (next.frac - prev.frac) * timeProgress
  let totalLength : ℤ := (coords.length : ℤ) - 1
  let floatIdx : ℚ := fraction * (totalLength : ℚ)
  let idx : ℤ := ⌊floatIdx⌋
  let subFraction : ℚ := floatIdx - (idx : ℚ)
  if (coords.length : ℤ) - 1 ≤ idx then
    (jsGet coords ((coords.length : ℤ) - 1)).map
      (fun c => ⟨c.1, c.2, next.heading⟩)
  else
    match jsGet coords idx, jsGet coords (idx + 1) with
    | some c0, some c1 =>
        some ⟨c0.1 + (c1.1 - c0.1) * subFraction,
              c0.2 + (c1.2 - c0.2) * subFraction,
              prev.heading + (next.heading - prev.heading) * timeProgress⟩
    | _, _ => none

/-- `interpolatePosition(coords, timeIntervals, now)`: `null` when there are
no intervals; freeze at `prev.fraction` past all data; sit at `next.fraction`
before all data; interpolate when both neighbours exist. -/
def interpolatePosition (coords : List (ℚ × ℚ)) (tis : List TimeInterval)
    (now : ℚ) : Option Pos :=
  match tis with
  | [] => none
  | _ :: _ =>
      match findTimeIntervals tis now with
      | (some prev, none) => getPositionAtFraction coords prev.frac prev.heading
      | (none, some next) => getPositionAtFraction coords next.frac next.heading
      | (some prev, some next) => interpolateBetweenIntervals coords prev next now
      | (none, none) => none

/-- `LONG_DISTANCE_PREFIXES` from `types/geops.ts`. -/
def longDistancePrefixList : List String :=
  ["IC", "ICE", "EC", "TGV", "RJX", "NJ", "EN", "IR"]

/-- Character-list recursion behind `strStartsWith`. -/
def strStartsWithAux : List Char → List Char → Bool
  | _, [] => true
  | [], _ => false
  | c :: cs, d :: ds => c == d && strStartsWithAux cs ds

/-- JS `String.prototype.startsWith`, modelled on the character lists
underlying the strings. -/
def strStartsWith (s p : String) : Bool := strStartsWithAux s.data p.data

/-- JS `String.prototype.toUpperCase`, modelled on the character list
underlying the string. -/
def strToUpper (s : String) : String := ⟨s.data.map Char.toUpper⟩

/-- `isLongDistanceTrain(lineName)`: a falsy (absent or empty) line name never
matches; otherwise uppercase the name and test whether it starts with one of
the fixed prefixes. -/
def isLongDistanceTrain (lineName : Option String) : Bool :=
  match lineName with
  | none => false
  | some s =>
      if s = "" then false
      else longDistancePrefixList.any (fun p => strStartsWith (strToUpper s) p)

/-- The stored per-vehicle trajectory record (`VehicleTrajectory`). -/
structure VehicleTrajectory where
  id : String
  coords : List (ℚ × ℚ)
  timeIntervals : List TimeInterval
  lineName : Option String
  lineColor : Option String
  destination : Option String
  delay : Option ℚ
  type : Option String
  state : Option String
deriving DecidableEq, Repr

/-- The current bounding box `{left, bottom, right, top}`. -/
structure BBox where
  left : ℚ
  bottom : ℚ
  right : ℚ
  top : ℚ
deriving DecidableEq, Repr

/-- The mutable fields of `GeopsApiService` the store-level operations touch:
the trajectory map (a JS `Map`, modelled as an insertion-ordered association
list), the transport-mode allow-list, the current bbox, and the
long-distance-only flag. -/
structure ServiceState where
  trajectories : List (String × VehicleTrajectory)
  currentMots : List String
  currentBBox : Option BBox
  longDistanceOnly : Bool
deriving DecidableEq, Repr

/-- `WEBSOCKET_CONFIG.BBOX_CHANGE_THRESHOLD = 0.05`. -/
def BBOX_CHANGE_THRESHOLD : ℚ := 5 / 100

/-- `hasBBoxChangedEnough(oldBBox, newBBox)`: relative width change, height
change and center shifts, each divided by the old dimension floored at 1;
the change is big enough unless all four are below the threshold. -/
def hasBBoxChangedEnough (oldB newB : BBox) : Bool :=
  let threshold := BBOX_CHANGE_THRESHOLD
  let oldWidth := oldB.right - oldB.left
  let oldHeight := oldB.top - oldB.bottom
  let newWidth := newB.right - newB.left
  let newHeight := newB.top - newB.bottom
  let centerXOld := (oldB.left + oldB.right) / 2
  let centerYOld := (oldB.bottom + oldB.top) / 2
  let centerXNew := (newB.left + newB.right) / 2
  let centerYNew := (newB.bottom + newB.top) / 2
  let widthChange := |newWidth - oldWidth| / max oldWidth 1
  let heightChange := |newHeight - oldHeight| / max oldHeight 1
  let centerXChange := |centerXNew - centerXOld| / max oldWidth 1
  let centerYChange := |centerYNew - centerYOld| / max oldHeight 1
  !(decide (widthChange < threshold) && decide (heightChange < threshold) &&
    decide (centerXChange < threshold) && decide (centerYChange < threshold))

/-- The eviction test of `updateBBox`: a trajectory with a non-empty path
whose last coordinate lies strictly outside the new box. -/
def evictedByBBox (newB : BBox) (e : String × VehicleTrajectory) : Bool :=
  match e.2.coords.getLast? with
  | none => false
  | some c =>
      decide (c.1 < newB.left) || decide (newB.right < c.1) ||
      decide (c.2 < newB.bottom) || decide (newB.top < c.2)

/-- `updateBBox(left, bottom, right, top)`.  Returns the new state, the list
of deletion events emitted (in store order), and whether the subscription
command was re-issued.  An insignificant change returns early with nothing
done. -/
def updateBBox (st : ServiceState) (left bottom right top : ℚ) :
    ServiceState × List String × Bool :=
  let newBBox : BBox := ⟨left, bottom, right, top⟩
  let insignificant :=
    match st.currentBBox with
    | some cur => !hasBBoxChangedEnough cur newBBox
    | none => false
  if insignificant then (st, [], false)
  else
    (⟨st.trajectories.filter (fun e => !evictedByBBox newBBox e),
      st.currentMots, some newBBox, st.longDistanceOnly⟩,
     (st.trajectories.filter (evictedByBBox newBBox)).map Prod.fst,
     true)

/-- The eviction test of `setTransportFilter`:
`!trajectory.type || !mots.includes(trajectory.type)` (a falsy — absent or
empty — mode always fails the filter). -/
def evictedByMots (mots : List String) (e : String × VehicleTrajectory) : Bool :=
  match e.2.type with
  | none => true
  | some t => t == "" || !(mots.contains t)

/-- `setTransportFilter(mots)`: replace the allow-list; scan-and-evict only
when the new list has a different length than the old one or some old mode is
missing from the new list. -/
def setTransportFilter (st : ServiceState) (mots : List String) :
    ServiceState × List String :=
  let previousMots := st.currentMots
  if previousMots.length ≠ mots.length ∨
      ¬ (∀ m ∈ previousMots, mots.contains m) then
    (⟨st.trajectories.filter (fun e => !evictedByMots mots e),
      mots, st.currentBBox, st.longDistanceOnly⟩,
     (st.trajectories.filter (evictedByMots mots)).map Prod.fst)
  else
    (⟨st.trajectories, mots, st.currentBBox, st.longDistanceOnly⟩, [])

/-- The eviction test of `setLongDistanceOnly`: a rail-mode trajectory whose
line name is not long-distance. -/
def evictedByLongDistance (e : String × VehicleTrajectory) : Bool :=
  e.2.type == some "rail" && !isLongDistanceTrain e.2.lineName

/-- `setLongDistanceOnly(enabled)`: no-op when unchanged; when enabling,
evict every rail trajectory failing the long-distance test. -/
def setLongDistanceOnly (st : ServiceState) (enabled : Bool) :
    ServiceState × List String :=
  if st.longDistanceOnly = enabled then (st, [])
  else if enabled then
    (⟨st.trajectories.filter (fun e => !evictedByLongDistance e),
      st.currentMots, st.currentBBox, enabled⟩,
     (st.trajectories.filter evictedByLongDistance).map Prod.fst)
  else
    (⟨st.trajectories, st.currentMots, st.currentBBox, enabled⟩, [])

/-- The `line` object of a trajectory feature's properties. -/
structure TrajLine where
  lineId : ℚ
  name : String
  color : Option String
deriving DecidableEq, Repr

/-- `TrajectoryProperties` of an inbound trajectory feature.  Fields absent
from the JSON are `none`; a JS falsy check (`!train_id`) also rejects the
empty string. -/
structure TrajectoryProperties where
  train_id : Option String
  line : Option TrajLine
  type : Option String
  time_intervals : Option (List TimeInterval)
  delay : Option ℚ
  state : Option String
  destination : Option String
deriving DecidableEq, Repr

/-- A `TrajectoryFeature`: geometry (the `LineString` coordinate list) and
properties, each possibly absent. -/
structure TrajectoryFeature where
  geometry : Option (List (ℚ × ℚ))
  properties : Option TrajectoryProperties
deriving DecidableEq, Repr

/-- JS `Map.set`: replace in place when the key exists (preserving insertion
order), otherwise append at the end. -/
def mapSet (store : List (String × VehicleTrajectory)) (k : String)
    (v : VehicleTrajectory) : List (String × VehicleTrajectory) :=
  if store.any (fun e => e.1 == k) then
    store.map (fun e => if e.1 == k then (k, v) else e)
  else store ++ [(k, v)]

/-- `processTrajectory(feature)`: validate, apply the long-distance filter,
upsert into the store and emit the trajectory-updated event
`(train_id, coords, type)`.  Returns the new state and the emitted event
(`none` when the message is dropped). -/
def processTrajectory (st : ServiceState) (f : TrajectoryFeature) :
    ServiceState × Option (String × List (ℚ × ℚ) × Option String) :=
  match f.properties, f.geometry with
  | some props, some coords =>
      match props.train_id, props.time_intervals with
      | some tid, some tis =>
          if tid = "" ∨ coords = [] then (st, none)
          else if st.longDistanceOnly ∧ props.type = some "rail" ∧
              isLongDistanceTrain (props.line.map TrajLine.name) = false then
            (st, none)
          else
            let trajectory : VehicleTrajectory :=
              ⟨tid, coords, tis, props.line.map TrajLine.name,
               props.line.bind TrajLine.color, props.destination,
               props.delay, props.type, props.state⟩
            (⟨mapSet st.trajectories tid trajectory, st.currentMots,
              st.currentBBox, st.longDistanceOnly⟩,
             some (tid, coords, props.type))
      | _, _ => (st, none)
  | _, _ => (st, none)

/-- The vehicle-count report of `getVehicleCounts()`. -/
structure VehicleCounts where
  rail : ℕ
  tram : ℕ
  bus : ℕ
  total : ℕ
deriving DecidableEq, Repr

/-- `getVehicleCounts()`: count stored trajectories by exact mode match and
report `total = rail + tram + bus`. -/
def getVehicleCounts (store : List (String × VehicleTrajectory)) :
    VehicleCounts :=
  let rail := store.countP (fun e => e.2.type == some "rail")
  let tram := store.countP (fun e => e.2.type == some "tram")
  let bus := store.countP (fun e => e.2.type == some "bus")
  ⟨rail, tram, bus, rail + tram + bus⟩

/-- `ANIMATION_CONFIG.VEHICLE_THRESHOLDS`. -/
def VEHICLE_THRESHOLDS : List ℕ := [100, 200, 300, 400]

/-- `ANIMATION_CONFIG.INTERVALS_MS`. -/
def INTERVALS_MS : List ℕ := [100, 150, 200, 300, 2000]

/-- `getAnimationInterval()`: walk the thresholds in order and return the
interval of the first threshold the count is below; past every threshold,
return the last interval. -/
def getAnimationInterval (count : ℕ) : ℕ :=
  match (VEHICLE_THRESHOLDS.zip INTERVALS_MS).find? (fun ti => count < ti.1) with
  | some ti => ti.2
  | none => INTERVALS_MS.getD (INTERVALS_MS.length - 1) 0

/-- C9: the animation update interval is a step function of the store size:
below 100 vehicles → 100 ms, 100–199 → 150 ms, 200–299 → 200 ms,
300–399 → 300 ms, and 400 or more → 2000 ms. -/
theorem c9_animation_interval_step_function (count : ℕ) :
    getAnimationInterval count =
      if count < 100 then 100
      else if count < 200 then 150
      else if count < 300 then 200
      else if count < 400 then 300
      else 2000 := by
  by_cases h1 : count < 100 <;> by_cases h2 : count < 200 <;>
    by_cases h3 : count < 300 <;> by_cases h4 : count < 400 <;>
    simp [getAnimationInterval, VEHICLE_THRESHOLDS, INTERVALS_MS,
      List.find?, h1, h2, h3, h4]

/-- C10: `getVehicleCounts` counts exactly the trajectories whose mode is
`rail`, `tram` or `bus`; `total` is always their sum, is at most the store
size, and can be strictly smaller. -/
theorem c10_vehicle_counts_partition :
    (∀ store : List (String × VehicleTrajectory),
      (getVehicleCounts store).total =
        (getVehicleCounts store).rail + (getVehicleCounts store).tram +
          (getVehicleCounts store).bus ∧
      (getVehicleCounts store).rail =
        (store.filter (fun e => e.2.type == some "rail")).length ∧
      (getVehicleCounts store).tram =
        (store.filter (fun e => e.2.type == some "tram")).length ∧
      (getVehicleCounts store).bus =
        (store.filter (fun e => e.2.type == some "bus")).length ∧
      (getVehicleCounts store).total ≤ store.length) ∧
    (∃ store : List (String × VehicleTrajectory),
      (getVehicleCounts store).total < store.length) := by
  constructor
  · intro store
    refine ⟨rfl, (List.countP_eq_length_filter _ _), (List.countP_eq_length_filter _ _),
      (List.countP_eq_length_filter _ _), ?_⟩
    induction store with
    | nil => simp [getVehicleCounts]
    | cons e rest ih =>
        simp only [getVehicleCounts, List.countP_cons, List.length_cons] at *
        by_cases h1 : (e.2.type == some "rail") = true <;>
          by_cases h2 : (e.2.type == some "tram") = true <;>
          by_cases h3 : (e.2.type == some "bus") = true <;>
          simp_all <;> omega
  · exact ⟨[("v1", ⟨"v1", [], [], none, none, none, none, none, none⟩)], by decide⟩

/-- C6: a trajectory message lacking a train identifier, lacking a
time-interval sequence, or with a missing or empty coordinate path leaves the
store unchanged and emits no event. -/
theorem c6_invalid_trajectory_dropped (st : ServiceState) (f : TrajectoryFeature)
    (h : f.properties.bind TrajectoryProperties.train_id = none ∨
         f.properties.bind TrajectoryProperties.time_intervals = none ∨
         f.geometry = none ∨ f.geometry = some []) :
    processTrajectory st f = (st, none) := by
  rcases f with ⟨geo, props⟩
  rcases props with _ | p
  · simp [processTrajectory]
  · rcases geo with _ | coords
    · simp [processTrajectory]
    · rcases hti : p.train_id with _ | tid
      · simp [processTrajectory, hti]
      · rcases hts : p.time_intervals with _ | tis
        · simp [processTrajectory, hti, hts]
        · simp only [Option.some_bind, hti, hts, reduceCtorEq, false_or,
            Option.some.injEq] at h
          simp [processTrajectory, hti, hts, h]

/-- C6 witness: a concrete feature with no `train_id` is dropped. -/
theorem c6_invalid_trajectory_dropped_witness :
    processTrajectory ⟨[], ["rail"], none, false⟩
      ⟨some [((0 : ℚ), (0 : ℚ))],
       some ⟨none, none, some "rail", some [⟨0, 0, 0⟩], none, none, none⟩⟩ =
      (⟨[], ["rail"], none, false⟩, none) :=
  c6_invalid_trajectory_dropped _ _ (Or.inl rfl)

/-- C4: `setLongDistanceOnly` is a no-op when the flag is unchanged; enabling
it from `false` evicts exactly the rail-mode trajectories failing the
long-distance prefix test (one deletion event each, in store order), keeps
every trajectory of any other mode, and the prefix test is a case-insensitive
starts-with match against the fixed prefix set in which an absent or empty
line name never matches. -/
theorem c4_long_distance_filter (st : ServiceState) :
    (∀ e', st.longDistanceOnly = e' → setLongDistanceOnly st e' = (st, [])) ∧
    (st.longDistanceOnly = false →
      (setLongDistanceOnly st true).1.trajectories =
        st.trajectories.filter
          (fun e => !(e.2.type == some "rail" && !isLongDistanceTrain e.2.lineName)) ∧
      (setLongDistanceOnly st true).2 =
        (st.trajectories.filter
          (fun e => e.2.type == some "rail" && !isLongDistanceTrain e.2.lineName)).map
          Prod.fst ∧
      (∀ e ∈ st.trajectories, e.2.type ≠ some "rail" →
        e ∈ (setLongDistanceOnly st true).1.trajectories)) ∧
    (isLongDistanceTrain none = false ∧ isLongDistanceTrain (some "") = false ∧
      ∀ s : String, isLongDistanceTrain (some s) = true ↔
        s ≠ "" ∧ ∃ p ∈ longDistancePrefixList, strStartsWith (strToUpper s) p) := by
  have hev : evictedByLongDistance =
      fun (e : String × VehicleTrajectory) =>
        (e.2.type == some "rail" && !isLongDistanceTrain e.2.lineName) := rfl
  refine ⟨?_, ?_, rfl, rfl, ?_⟩
  · intro e' h
    simp [setLongDistanceOnly, h]
  · intro h
    have hne : ¬ st.longDistanceOnly = true := by simp [h]
    refine ⟨by simp [setLongDistanceOnly, hne, hev], by simp [setLongDistanceOnly, hne, hev], ?_⟩
    intro e he hrail
    simp [setLongDistanceOnly, h, List.mem_filter, evictedByLongDistance, hrail, he]
  · intro s
    by_cases hs : s = ""
    · simp [isLongDistanceTrain, hs]
    · simp [isLongDistanceTrain, hs, List.any_eq_true]

/-- C4 witness: enabling the filter on a store holding a rail "S3", a rail
"IC5" and a bus "S3" evicts exactly the rail "S3". -/
theorem c4_long_distance_filter_witness :
    (setLongDistanceOnly
      ⟨[("r1", ⟨"r1", [], [], some "S3", none, none, none, some "rail", none⟩),
        ("r2", ⟨"r2", [], [], some "IC5", none, none, none, some "rail", none⟩),
        ("b1", ⟨"b1", [], [], some "S3", none, none, none, some "bus", none⟩)],
       ["rail"], none, false⟩ true).2 = ["r1"] := by
  have h := (c4_long_distance_filter
    ⟨[("r1", ⟨"r1", [], [], some "S3", none, none, none, some "rail", none⟩),
      ("r2", ⟨"r2", [], [], some "IC5", none, none, none, some "rail", none⟩),
      ("b1", ⟨"b1", [], [], some "S3", none, none, none, some "bus", none⟩)],
     ["rail"], none, false⟩).2.1 rfl
  rw [h.2.1]
  decide

/-- C5 counterexample: with active list `["rail","rail"]` and new list
`["rail","bus"]` the two lists denote different sets (`"bus"` is new), yet a
stored tram trajectory — whose mode `"tram"` is not in the new list — is not
evicted and no deletion event is emitted, because the code skips the eviction
scan whenever the lists have equal length and every old mode occurs in the
new list. -/
theorem c5_counterexample_set_difference_without_eviction :
    ("bus" ∈ (["rail", "bus"] : List String) ∧
      "bus" ∉ (["rail", "rail"] : List String)) ∧
    "tram" ∉ (["rail", "bus"] : List String) ∧
    (setTransportFilter
      ⟨[("v1", ⟨"v1", [], [], none, none, none, none, some "tram", none⟩)],
       ["rail", "rail"], none, false⟩ ["rail", "bus"]).1.trajectories =
      [("v1", ⟨"v1", [], [], none, none, none, none, some "tram", none⟩)] ∧
    (setTransportFilter
      ⟨[("v1", ⟨"v1", [], [], none, none, none, none, some "tram", none⟩)],
       ["rail", "rail"], none, false⟩ ["rail", "bus"]).2 = [] := by
  decide

/-- C5 amended: `setTransportFilter` skips eviction exactly when the new list
has the same length as the old one and contains every old mode (hence for any
permutation of the old list); otherwise it evicts exactly the stored
trajectories whose mode is absent, empty, or not in the new list, one
deletion event each. -/
theorem c5_transport_filter_eviction (st : ServiceState) (mots : List String) :
    ((st.currentMots.length = mots.length ∧
        ∀ m ∈ st.currentMots, mots.contains m) →
      setTransportFilter st mots =
        (⟨st.trajectories, mots, st.currentBBox, st.longDistanceOnly⟩, [])) ∧
    (st.currentMots.Perm mots →
      (setTransportFilter st mots).1.trajectories = st.trajectories ∧
      (setTransportFilter st mots).2 = []) ∧
    ((st.currentMots.length ≠ mots.length ∨
        ¬ ∀ m ∈ st.currentMots, mots.contains m) →
      (setTransportFilter st mots).1.trajectories =
        st.trajectories.filter (fun e => !evictedByMots mots e) ∧
      (setTransportFilter st mots).2 =
        (st.trajectories.filter (evictedByMots mots)).map Prod.fst ∧
      (∀ e ∈ st.trajectories, (∃ t, e.2.type = some t ∧ t ≠ "" ∧ t ∈ mots) →
        e ∈ (setTransportFilter st mots).1.trajectories)) := by
  have h1 : ∀ (_ : st.currentMots.length = mots.length)
      (_ : ∀ m ∈ st.currentMots, mots.contains m),
      setTransportFilter st mots =
        (⟨st.trajectories, mots, st.currentBBox, st.longDistanceOnly⟩, []) := by
    intro hl hm
    have hcond : ¬ (st.currentMots.length ≠ mots.length ∨
        ¬ ∀ m ∈ st.currentMots, mots.contains m) := by
      rintro (hc | hc)
      · exact hc hl
      · exact hc hm
    simp only [setTransportFilter]
    rw [if_neg hcond]
  have h2 : (st.currentMots.length ≠ mots.length ∨
      ¬ ∀ m ∈ st.currentMots, mots.contains m) →
      setTransportFilter st mots =
        (⟨st.trajectories.filter (fun e => !evictedByMots mots e), mots,
          st.currentBBox, st.longDistanceOnly⟩,
         (st.trajectories.filter (evictedByMots mots)).map Prod.fst) := by
    intro h
    simp only [setTransportFilter]
    rw [if_pos h]
  refine ⟨fun h => h1 h.1 h.2, ?_, ?_⟩
  · intro hperm
    have hmem : ∀ m ∈ st.currentMots, mots.contains m := by
      intro m hm
      simpa using hperm.mem_iff.1 hm
    rw [h1 hperm.length_eq hmem]
    exact ⟨rfl, rfl⟩
  · intro h
    rw [h2 h]
    refine ⟨rfl, rfl, ?_⟩
    rintro e he ⟨t, ht, htne, htmem⟩
    simp only [List.mem_filter]
    exact ⟨he, by simp [evictedByMots, ht, htne, htmem]⟩

/-- C5 witness: reordering the active list `["rail","tram"]` to
`["tram","rail"]` evicts nothing from a store holding a rail vehicle. -/
theorem c5_transport_filter_eviction_witness :
    (setTransportFilter
      ⟨[("v1", ⟨"v1", [], [], none, none, none, none, some "rail", none⟩)],
       ["rail", "tram"], none, false⟩ ["tram", "rail"]).1.trajectories =
      [("v1", ⟨"v1", [], [], none, none, none, none, some "rail", none⟩)] ∧
    (setTransportFilter
      ⟨[("v1", ⟨"v1", [], [], none, none, none, none, some "rail", none⟩)],
       ["rail", "tram"], none, false⟩ ["tram", "rail"]).2 = [] :=
  (c5_transport_filter_eviction _ _).2.1 (by decide)

/-- The spec's significance condition for a viewport change from `oldB` to
the box `(l, b, r, t)`, written as the four relative changes (width, height,
center-x, center-y), each strictly below 5% of the old box's width/height
floored at 1. -/
def bboxInsignificant (oldB : BBox) (l b r t : ℚ) : Prop :=
  |(r - l) - (oldB.right - oldB.left)| / max (oldB.right - oldB.left) 1 < 5 / 100 ∧
  |(t - b) - (oldB.top - oldB.bottom)| / max (oldB.top - oldB.bottom) 1 < 5 / 100 ∧
  |(l + r) / 2 - (oldB.left + oldB.right) / 2| / max (oldB.right - oldB.left) 1 < 5 / 100 ∧
  |(b + t) / 2 - (oldB.bottom + oldB.top) / 2| / max (oldB.top - oldB.bottom) 1 < 5 / 100

/-- `hasBBoxChangedEnough` is false exactly on insignificant changes. -/
lemma hasBBoxChangedEnough_eq_false (oldB : BBox) (l b r t : ℚ) :
    hasBBoxChangedEnough oldB ⟨l, b, r, t⟩ = false ↔
      bboxInsignificant oldB l b r t := by
  simp only [hasBBoxChangedEnough, bboxInsignificant, BBOX_CHANGE_THRESHOLD,
    Bool.not_eq_false', Bool.and_eq_true, decide_eq_true_eq]
  tauto

/-- An insignificant `updateBBox` call is a complete no-op. -/
lemma updateBBox_insignificant (st : ServiceState) (cur : BBox) (l b r t : ℚ)
    (hb : st.currentBBox = some cur)
    (h : hasBBoxChangedEnough cur ⟨l, b, r, t⟩ = false) :
    updateBBox st l b r t = (st, [], false) := by
  simp [updateBBox, hb, h]

/-- A significant (or first) `updateBBox` call evicts the out-of-box
trajectories, stores the new box and resubscribes. -/
lemma updateBBox_significant (st : ServiceState) (l b r t : ℚ)
    (h : ∀ cur, st.currentBBox = some cur →
      hasBBoxChangedEnough cur ⟨l, b, r, t⟩ = true) :
    updateBBox st l b r t =
      (⟨st.trajectories.filter (fun e => !evictedByBBox ⟨l, b, r, t⟩ e),
        st.currentMots, some ⟨l, b, r, t⟩, st.longDistanceOnly⟩,
       (st.trajectories.filter (evictedByBBox ⟨l, b, r, t⟩)).map Prod.fst,
       true) := by
  rcases hb : st.currentBBox with _ | cur
  · simp [updateBBox, hb]
  · simp [updateBBox, hb, h cur hb]

/-- C3 counterexample: a stored box of width and height 1/2, resized by
exactly 6% in both dimensions (new size 53/100), is treated as insignificant:
`updateBBox` is a complete no-op and no resubscription happens — the
divide-by-zero guard `max(old, 1)` dilutes the relative change of boxes
smaller than one coordinate unit, so a 6% resize does not always trigger a
resubscription, contradicting the claim. -/
theorem c3_counterexample_six_percent_small_box :
    ((53 : ℚ) / 100 - 1 / 2 = 6 / 100 * (1 / 2)) ∧
    updateBBox ⟨[], ["rail"], some ⟨0, 0, 1 / 2, 1 / 2⟩, false⟩
        0 0 (53 / 100) (53 / 100) =
      (⟨[], ["rail"], some ⟨0, 0, 1 / 2, 1 / 2⟩, false⟩, [], false) := by
  constructor
  · norm_num
  · apply updateBBox_insignificant _ ⟨0, 0, 1 / 2, 1 / 2⟩ _ _ _ _ rfl
    rw [hasBBoxChangedEnough_eq_false]
    refine ⟨?_, ?_, ?_, ?_⟩ <;>
      · rw [show ((1:ℚ)/2 - 0) ⊔ 1 = 1 from max_eq_right (by norm_num)]
        simp only [div_one]
        rw [abs_lt]
        constructor <;> norm_num

/-- C3 amended: `updateBBox` is a complete no-op (no eviction, no stored-box
replacement, no resubscription) exactly when a current box is set and all
four relative changes are strictly below 5% (each divided by the old
width/height floored at 1); a box resized by exactly 4% in width and height
with center shifted at most 4% never resubscribes; a box of width at least
one coordinate unit resized by exactly 6% in width does resubscribe. -/
theorem c3_viewport_significance (st : ServiceState) (l b r t : ℚ) :
    (updateBBox st l b r t = (st, [], false) ↔
      ∃ cur, st.currentBBox = some cur ∧ bboxInsignificant cur l b r t) ∧
    (∀ cur, st.currentBBox = some cur →
      |(r - l) - (cur.right - cur.left)| = 4 / 100 * (cur.right - cur.left) →
      |(t - b) - (cur.top - cur.bottom)| = 4 / 100 * (cur.top - cur.bottom) →
      |(l + r) / 2 - (cur.left + cur.right) / 2| ≤
        4 / 100 * (cur.right - cur.left) →
      |(b + t) / 2 - (cur.bottom + cur.top) / 2| ≤
        4 / 100 * (cur.top - cur.bottom) →
      updateBBox st l b r t = (st, [], false)) ∧
    (∀ cur, st.currentBBox = some cur → 1 ≤ cur.right - cur.left →
      |(r - l) - (cur.right - cur.left)| = 6 / 100 * (cur.right - cur.left) →
      (updateBBox st l b r t).2.2 = true) := by
  refine ⟨⟨?_, ?_⟩, ?_, ?_⟩
  · intro he
    rcases hb : st.currentBBox with _ | cur
    · exfalso
      have h2 := updateBBox_significant st l b r t
        (by intro c hc; rw [hb] at hc; simp at hc)
      rw [h2] at he
      simpa using congrArg (fun p : ServiceState × List String × Bool => p.2.2) he
    · by_cases hch : hasBBoxChangedEnough cur ⟨l, b, r, t⟩ = true
      · exfalso
        have h2 := updateBBox_significant st l b r t
          (by intro c hc; rw [hb] at hc; cases hc; exact hch)
        rw [h2] at he
        simpa using congrArg (fun p : ServiceState × List String × Bool => p.2.2) he
      · have hf : hasBBoxChangedEnough cur ⟨l, b, r, t⟩ = false := by
          simpa using hch
        exact ⟨cur, rfl, (hasBBoxChangedEnough_eq_false cur l b r t).1 hf⟩
  · rintro ⟨cur, hb, hins⟩
    exact updateBBox_insignificant st cur l b r t hb
      ((hasBBoxChangedEnough_eq_false cur l b r t).2 hins)
  · intro cur hb h1 h2 h3 h4
    apply updateBBox_insignificant st cur l b r t hb
    rw [hasBBoxChangedEnough_eq_false]
    have hW0 : 0 ≤ cur.right - cur.left := by
      have h0 := abs_nonneg ((r - l) - (cur.right - cur.left))
      rw [h1] at h0
      linarith
    have hH0 : 0 ≤ cur.top - cur.bottom := by
      have h0 := abs_nonneg ((t - b) - (cur.top - cur.bottom))
      rw [h2] at h0
      linarith
    have hWpos : (0:ℚ) < max (cur.right - cur.left) 1 :=
      lt_of_lt_of_le one_pos (le_max_right _ _)
    have hHpos : (0:ℚ) < max (cur.top - cur.bottom) 1 :=
      lt_of_lt_of_le one_pos (le_max_right _ _)
    have hWle : cur.right - cur.left ≤ max (cur.right - cur.left) 1 :=
      le_max_left _ _
    have hHle : cur.top - cur.bottom ≤ max (cur.top - cur.bottom) 1 :=
      le_max_left _ _
    refine ⟨?_, ?_, ?_, ?_⟩
    · rw [div_lt_iff₀ hWpos, h1]
      linarith
    · rw [div_lt_iff₀ hHpos, h2]
      linarith
    · rw [div_lt_iff₀ hWpos]
      linarith
    · rw [div_lt_iff₀ hHpos]
      linarith
  · intro cur hb hW h6
    have hWpos : (0:ℚ) < cur.right - cur.left := lt_of_lt_of_le one_pos hW
    have hch : hasBBoxChangedEnough cur ⟨l, b, r, t⟩ = true := by
      rcases Bool.eq_false_or_eq_true (hasBBoxChangedEnough cur ⟨l, b, r, t⟩)
        with ht | hf
      · exact ht
      · exfalso
        have hins := (hasBBoxChangedEnough_eq_false cur l b r t).1 hf
        have hw := hins.1
        rw [max_eq_left hW, div_lt_iff₀ hWpos, h6] at hw
        linarith
    rw [updateBBox_significant st l b r t
      (by intro c hc; rw [hb] at hc; cases hc; exact hch)]

/-- C3 witness: with stored box `(0,0,10,10)`, the 4%-resized box
`(0,0,10.4,10.4)` is a no-op, and the 6%-resized box `(0,0,10.6,10.6)`
triggers a resubscription. -/
theorem c3_viewport_significance_witness :
    updateBBox ⟨[], ["rail"], some ⟨0, 0, 10, 10⟩, false⟩ 0 0 (52 / 5) (52 / 5) =
      (⟨[], ["rail"], some ⟨0, 0, 10, 10⟩, false⟩, [], false) ∧
    (updateBBox ⟨[], ["rail"], some ⟨0, 0, 10, 10⟩, false⟩
        0 0 (53 / 5) (53 / 5)).2.2 = true := by
  constructor
  · exact (c3_viewport_significance ⟨[], ["rail"], some ⟨0, 0, 10, 10⟩, false⟩
      0 0 (52 / 5) (52 / 5)).2.1 ⟨0, 0, 10, 10⟩ rfl
      (by rw [abs_of_nonneg (by norm_num : (0:ℚ) ≤ (52 / 5 - 0) - (10 - 0))]; norm_num)
      (by rw [abs_of_nonneg (by norm_num : (0:ℚ) ≤ (52 / 5 - 0) - (10 - 0))]; norm_num)
      (by rw [abs_of_nonneg (by norm_num : (0:ℚ) ≤ (0 + 52 / 5) / 2 - (0 + 10) / 2)]; norm_num)
      (by rw [abs_of_nonneg (by norm_num : (0:ℚ) ≤ (0 + 52 / 5) / 2 - (0 + 10) / 2)]; norm_num)
  · exact (c3_viewport_significance ⟨[], ["rail"], some ⟨0, 0, 10, 10⟩, false⟩
      0 0 (53 / 5) (53 / 5)).2.2 ⟨0, 0, 10, 10⟩ rfl (by norm_num)
      (by rw [abs_of_nonneg (by norm_num : (0:ℚ) ≤ (53 / 5 - 0) - (10 - 0))]; norm_num)

/-- A trajectory with a non-empty path survives the bbox eviction test
exactly when its last coordinate is inside the box. -/
lemma evictedByBBox_eq_false_iff (l b r t : ℚ) (e : String × VehicleTrajectory)
    (h : e.2.coords ≠ []) :
    evictedByBBox ⟨l, b, r, t⟩ e = false ↔
      (l ≤ (e.2.coords.getLastD (0, 0)).1 ∧
       (e.2.coords.getLastD (0, 0)).1 ≤ r ∧
       b ≤ (e.2.coords.getLastD (0, 0)).2 ∧
       (e.2.coords.getLastD (0, 0)).2 ≤ t) := by
  obtain ⟨c, hc⟩ : ∃ c, e.2.coords.getLast? = some c := by
    rw [← Option.isSome_iff_exists, List.getLast?_isSome]
    exact h
  rw [List.getLastD_eq_getLast?, hc]
  simp only [evictedByBBox, hc, Option.getD_some, Bool.or_eq_false_iff,
    decide_eq_false_iff_not, not_lt]
  tauto

/-- C7: after a significant `updateBBox`, the stored box is the new box,
every surviving trajectory's last coordinate is inside it, trajectories whose
last coordinate is inside survive untouched, and the deletion events are
exactly the evicted ids, each exactly once. -/
theorem c7_bbox_eviction_invariant (st : ServiceState) (l b r t : ℚ)
    (hsig : ∀ cur, st.currentBBox = some cur →
      hasBBoxChangedEnough cur ⟨l, b, r, t⟩ = true)
    (hne : ∀ e ∈ st.trajectories, e.2.coords ≠ [])
    (hnd : (st.trajectories.map Prod.fst).Nodup) :
    (updateBBox st l b r t).1.currentBBox = some ⟨l, b, r, t⟩ ∧
    (∀ e ∈ (updateBBox st l b r t).1.trajectories,
      l ≤ (e.2.coords.getLastD (0, 0)).1 ∧
      (e.2.coords.getLastD (0, 0)).1 ≤ r ∧
      b ≤ (e.2.coords.getLastD (0, 0)).2 ∧
      (e.2.coords.getLastD (0, 0)).2 ≤ t) ∧
    (∀ e ∈ st.trajectories,
      (l ≤ (e.2.coords.getLastD (0, 0)).1 ∧
       (e.2.coords.getLastD (0, 0)).1 ≤ r ∧
       b ≤ (e.2.coords.getLastD (0, 0)).2 ∧
       (e.2.coords.getLastD (0, 0)).2 ≤ t) →
      e ∈ (updateBBox st l b r t).1.trajectories) ∧
    (∀ k, k ∈ (updateBBox st l b r t).2.1 ↔
      ∃ tr, (k, tr) ∈ st.trajectories ∧
        (k, tr) ∉ (updateBBox st l b r t).1.trajectories) ∧
    ((updateBBox st l b r t).2.1).Nodup := by
  rw [updateBBox_significant st l b r t hsig]
  refine ⟨rfl, ?_, ?_, ?_, ?_⟩
  · intro e he
    rw [List.mem_filter] at he
    have hf : evictedByBBox ⟨l, b, r, t⟩ e = false := by
      have := he.2
      simpa using this
    exact (evictedByBBox_eq_false_iff l b r t e (hne e he.1)).1 hf
  · intro e he hin
    rw [List.mem_filter]
    refine ⟨he, ?_⟩
    have hf := (evictedByBBox_eq_false_iff l b r t e (hne e he)).2 hin
    simp [hf]
  · intro k
    constructor
    · intro hk
      rw [List.mem_map] at hk
      obtain ⟨e, hef, hk⟩ := hk
      rw [List.mem_filter] at hef
      refine ⟨e.2, ?_, ?_⟩
      · rw [show (k, e.2) = e from by rw [← hk]]
        exact hef.1
      · rw [show (k, e.2) = e from by rw [← hk]]
        intro hin
        rw [List.mem_filter] at hin
        rw [hef.2] at hin
        simpa using hin.2
    · rintro ⟨tr, hmem, hnotin⟩
      have hev : evictedByBBox ⟨l, b, r, t⟩ (k, tr) = true := by
        rcases Bool.eq_false_or_eq_true (evictedByBBox ⟨l, b, r, t⟩ (k, tr))
          with ht | hf
        · exact ht
        · exact absurd (List.mem_filter.2 ⟨hmem, by simp [hf]⟩) hnotin
      rw [List.mem_map]
      exact ⟨(k, tr), List.mem_filter.2 ⟨hmem, hev⟩, rfl⟩
  · exact hnd.sublist ((List.filter_sublist _).map Prod.fst)

/-- C7 witness: a first `updateBBox` to `(0,0,10,10)` on a store with one
in-box and one out-of-box trajectory stores the new box. -/
theorem c7_bbox_eviction_invariant_witness :
    (updateBBox
      ⟨[("in1", ⟨"in1", [(5, 5)], [], none, none, none, none, some "rail", none⟩),
        ("out1", ⟨"out1", [(20, 20)], [], none, none, none, none, some "rail", none⟩)],
       ["rail"], none, false⟩ 0 0 10 10).1.currentBBox = some ⟨0, 0, 10, 10⟩ :=
  (c7_bbox_eviction_invariant _ 0 0 10 10
    (by intro c hc; simp at hc) (by decide) (by decide)).1

/-- C1: for a two-point path and the two intervals `(t0,0,0)`, `(t1,1,0)`
with `t0 < t1`, querying at the midpoint time yields the path midpoint with
heading 0. -/
theorem c1_midpoint_interpolation (p0 p1 : ℚ × ℚ) (t0 t1 : ℚ) (h : t0 < t1) :
    interpolatePosition [p0, p1] [⟨t0, 0, 0⟩, ⟨t1, 1, 0⟩] ((t0 + t1) / 2) =
      some ⟨(p0.1 + p1.1) / 2, (p0.2 + p1.2) / 2, 0⟩ := by
  have h0 : t0 ≤ (t0 + t1) / 2 := by linarith
  have h1 : ¬ (t1 ≤ (t0 + t1) / 2) := by
    intro hc
    linarith
  have hfind : findTimeIntervals [⟨t0, 0, 0⟩, ⟨t1, 1, 0⟩] ((t0 + t1) / 2) =
      (some ⟨t0, 0, 0⟩, some ⟨t1, 1, 0⟩) := by
    simp [findTimeIntervals, findTIGo, h0, h1]
  have htp : ((t0 + t1) / 2 - t0) / (t1 - t0) = 1 / 2 := by
    rw [div_eq_iff (by linarith : t1 - t0 ≠ 0)]
    ring
  have hfloor : ⌊(1 : ℚ) / 2⌋ = 0 := by norm_num
  simp only [interpolatePosition, hfind, interpolateBetweenIntervals]
  norm_num [htp, h, hfloor, jsGet, Int.fract]
  constructor
  · ring
  · ring

/-- C1 witness: path `[(0,0),(10,0)]` over times 0..2 queried at time 1 gives
the midpoint `(5,0)`. -/
theorem c1_midpoint_interpolation_witness :
    interpolatePosition [((0 : ℚ), (0 : ℚ)), (10, 0)] [⟨0, 0, 0⟩, ⟨2, 1, 0⟩]
        ((0 + 2) / 2) =
      some ⟨(0 + 10) / 2, (0 + 0) / 2, 0⟩ :=
  c1_midpoint_interpolation (0, 0) (10, 0) 0 2 (by norm_num)

/-- When every interval's timestamp is at most `now`, the scan returns the
last interval as `prev` and no `next`. -/
lemma findTIGo_all_le (now : ℚ) :
    ∀ (tis : List TimeInterval) (h : tis ≠ []) (acc : Option TimeInterval),
      (∀ i ∈ tis, i.ts ≤ now) →
      findTIGo tis now acc = (some (tis.getLast h), none) := by
  intro tis
  induction tis with
  | nil => intro h; exact absurd rfl h
  | cons a rest ih =>
      intro h acc hall
      rcases rest with _ | ⟨b, rest2⟩
      · simp [findTIGo, hall a (by simp)]
      · rw [show findTIGo (a :: b :: rest2) now acc =
            if a.ts ≤ now then findTIGo (b :: rest2) now (some a)
            else (acc, some a) from rfl]
        rw [if_pos (hall a (by simp))]
        rw [ih (by simp) (some a) (fun i hi => hall i (by simp [hi]))]
        simp [List.getLast_cons]
/-- In a timestamp-sorted interval list, every timestamp is at most the
last one. -/
lemma sorted_ts_le_getLast :
    ∀ (tis : List TimeInterval) (h : tis ≠ []),
      tis.Sorted (fun a b => a.ts ≤ b.ts) →
      ∀ i ∈ tis, i.ts ≤ (tis.getLast h).ts := by
  intro tis
  induction tis with
  | nil => intro h; exact absurd rfl h
  | cons a rest ih =>
      intro h hs i hi
      rcases rest with _ | ⟨b, rest2⟩
      · simp only [List.mem_singleton] at hi
        subst hi
        simp [List.getLast]
      · rw [List.sorted_cons] at hs
        rw [List.getLast_cons (by simp : (b :: rest2) ≠ [])]
        rcases List.mem_cons.1 hi with rfl | hi2
        · exact hs.1 _ (List.getLast_mem _)
        · exact ih (by simp) hs.2 i hi2

/-- C2: with a timestamp-sorted non-empty interval list, querying at or after
the last interval's timestamp returns the path point at the last interval's
fraction with its heading; querying strictly before every interval's
timestamp returns the path point at the first interval's fraction with its
heading. -/
theorem c2_before_after_clamping (coords : List (ℚ × ℚ))
    (tis : List TimeInterval) (now : ℚ) (hc : coords ≠ []) (ht : tis ≠ [])
    (hs : tis.Sorted (fun a b => a.ts ≤ b.ts)) :
    ((tis.getLast ht).ts ≤ now →
      interpolatePosition coords tis now =
        getPositionAtFraction coords (tis.getLast ht).frac
          (tis.getLast ht).heading) ∧
    ((∀ i ∈ tis, now < i.ts) →
      interpolatePosition coords tis now =
        getPositionAtFraction coords (tis.head ht).frac
          (tis.head ht).heading) := by
  constructor
  · intro hle
    have hall : ∀ i ∈ tis, i.ts ≤ now := fun i hi =>
      le_trans (sorted_ts_le_getLast tis ht hs i hi) hle
    rcases tis with _ | ⟨a, rest⟩
    · exact absurd rfl ht
    · simp only [interpolatePosition, findTimeIntervals]
      rw [findTIGo_all_le now (a :: rest) ht none hall]
  · intro hlt
    rcases tis with _ | ⟨a, rest⟩
    · exact absurd rfl ht
    · simp only [interpolatePosition, findTimeIntervals, findTIGo]
      rw [if_neg (not_le.2 (hlt a (by simp)))]
      rfl

/-- C2 witness: querying the 0..10 trajectory at time 20 freezes at fraction
1 with heading 2; querying at time -5 sits at fraction 0 with heading 0. -/
theorem c2_before_after_clamping_witness :
    interpolatePosition [((0 : ℚ), (0 : ℚ)), (10, 0)] [⟨0, 0, 0⟩, ⟨10, 1, 2⟩]
        20 =
      getPositionAtFraction [((0 : ℚ), (0 : ℚ)), (10, 0)] 1 2 ∧
    interpolatePosition [((0 : ℚ), (0 : ℚ)), (10, 0)] [⟨0, 0, 0⟩, ⟨10, 1, 2⟩]
        (-5) =
      getPositionAtFraction [((0 : ℚ), (0 : ℚ)), (10, 0)] 0 0 := by
  constructor
  · exact (c2_before_after_clamping _ _ 20 (by simp) (by simp)
      (by norm_num [List.sorted_cons])).1 (by show (10 : ℚ) ≤ 20; norm_num)
  · exact (c2_before_after_clamping _ _ (-5) (by simp) (by simp)
      (by norm_num [List.sorted_cons])).2
      (by intro i hi; fin_cases hi <;> norm_num)

/-- A JS array read with an index inside the bounds succeeds. -/
lemma jsGet_isSome {α : Type} (l : List α) (i : ℤ) (h0 : 0 ≤ i)
    (hlt : i < (l.length : ℤ)) : ∃ a, jsGet l i = some a := by
  have hn : i.toNat < l.length := by omega
  refine ⟨l.get ⟨i.toNat, hn⟩, ?_⟩
  simp [jsGet, h0, List.get?_eq_get hn]

/-- `getPositionAtFraction` succeeds on a non-empty path and a fraction in
`[0,1]`: the clamped index stays within bounds. -/
lemma getPositionAtFraction_isSome (coords : List (ℚ × ℚ)) (f r : ℚ)
    (hc : coords ≠ []) (h0 : 0 ≤ f) (h1 : f ≤ 1) :
    ∃ pos, getPositionAtFraction coords f r = some pos := by
  have hn : 1 ≤ (coords.length : ℤ) := by
    rcases coords with _ | ⟨c, rest⟩
    · exact absurd rfl hc
    · simp only [List.length_cons]
      omega
  have hcast0 : (0 : ℚ) ≤ (((coords.length : ℤ) - 1 : ℤ) : ℚ) := by
    exact_mod_cast (by omega : (0 : ℤ) ≤ (coords.length : ℤ) - 1)
  have hfl0 : 0 ≤ ⌊f * (((coords.length : ℤ) - 1 : ℤ) : ℚ)⌋ :=
    Int.floor_nonneg.2 (mul_nonneg h0 hcast0)
  have h0' : 0 ≤ min ⌊f * (((coords.length : ℤ) - 1 : ℤ) : ℚ)⌋
      ((coords.length : ℤ) - 1) := le_min hfl0 (by omega)
  have hlt : min ⌊f * (((coords.length : ℤ) - 1 : ℤ) : ℚ)⌋
      ((coords.length : ℤ) - 1) < (coords.length : ℤ) := by
    have := min_le_right ⌊f * (((coords.length : ℤ) - 1 : ℤ) : ℚ)⌋
      ((coords.length : ℤ) - 1)
    omega
  obtain ⟨c, hcg⟩ := jsGet_isSome coords _ h0' hlt
  refine ⟨⟨c.1, c.2, r⟩, ?_⟩
  simp only [getPositionAtFraction]
  rw [hcg]
  rfl

/-- `interpolateBetweenIntervals` succeeds when the path is non-empty, both
fractions lie in `[0,1]`, and `now` lies in `[prev.ts, next.ts)`: the floor
index is clamped at the last vertex and the unclamped branch accesses only
`idx` and `idx + 1` below it. -/
lemma interpolateBetweenIntervals_isSome (coords : List (ℚ × ℚ))
    (prev next : TimeInterval) (now : ℚ) (hc : coords ≠ [])
    (hp0 : 0 ≤ prev.frac) (hp1 : prev.frac ≤ 1)
    (hn0 : 0 ≤ next.frac) (hn1 : next.frac ≤ 1)
    (hts : prev.ts ≤ now) (hts2 : now < next.ts) :
    ∃ pos, interpolateBetweenIntervals coords prev next now = some pos := by
  have hdiff : 0 < next.ts - prev.ts := by linarith
  have hlen : 1 ≤ (coords.length : ℤ) := by
    rcases coords with _ | ⟨c, rest⟩
    · exact absurd rfl hc
    · simp only [List.length_cons]
      omega
  have htp0 : 0 ≤ (now - prev.ts) / (next.ts - prev.ts) :=
    div_nonneg (by linarith) (le_of_lt hdiff)
  have htp1 : (now - prev.ts) / (next.ts - prev.ts) ≤ 1 := by
    rw [div_le_one hdiff]
    linarith
  simp only [interpolateBetweenIntervals, if_pos hdiff]
  set tp := (now - prev.ts) / (next.ts - prev.ts) with htp
  set frac := prev.frac + (next.frac - prev.frac) * tp with hfrac
  have hf0 : 0 ≤ frac := by nlinarith
  have hf1 : frac ≤ 1 := by nlinarith
  have hcast0 : (0 : ℚ) ≤ (((coords.length : ℤ) - 1 : ℤ) : ℚ) := by
    exact_mod_cast (by omega : (0 : ℤ) ≤ (coords.length : ℤ) - 1)
  have hidx0 : 0 ≤ ⌊frac * (((coords.length : ℤ) - 1 : ℤ) : ℚ)⌋ :=
    Int.floor_nonneg.2 (mul_nonneg hf0 hcast0)
  have hidxle : ⌊frac * (((coords.length : ℤ) - 1 : ℤ) : ℚ)⌋ ≤
      (coords.length : ℤ) - 1 := by
    have hmle : frac * (((coords.length : ℤ) - 1 : ℤ) : ℚ) ≤
        (((coords.length : ℤ) - 1 : ℤ) : ℚ) :=
      mul_le_of_le_one_left hcast0 hf1
    have := Int.floor_le_floor hmle
    rwa [Int.floor_intCast] at this
  by_cases hcl : (coords.length : ℤ) - 1 ≤
      ⌊frac * (((coords.length : ℤ) - 1 : ℤ) : ℚ)⌋
  · rw [if_pos hcl]
    obtain ⟨c, hcg⟩ := jsGet_isSome coords ((coords.length : ℤ) - 1)
      (by omega) (by omega)
    rw [hcg]
    exact ⟨⟨c.1, c.2, next.heading⟩, rfl⟩
  · rw [if_neg hcl]
    have hlt : ⌊frac * (((coords.length : ℤ) - 1 : ℤ) : ℚ)⌋ <
        (coords.length : ℤ) - 1 := by omega
    obtain ⟨c0, hcg0⟩ := jsGet_isSome coords
      ⌊frac * (((coords.length : ℤ) - 1 : ℤ) : ℚ)⌋ hidx0 (by omega)
    obtain ⟨c1, hcg1⟩ := jsGet_isSome coords
      (⌊frac * (((coords.length : ℤ) - 1 : ℤ) : ℚ)⌋ + 1) (by omega) (by omega)
    rw [hcg0, hcg1]
    exact ⟨_, rfl⟩

/-- The `prev` returned by the scan is the accumulator or an interval with
timestamp at most `now`. -/
lemma findTIGo_fst_spec (tis : List TimeInterval) (now : ℚ)
    (acc : Option TimeInterval) :
    (findTIGo tis now acc).1 = acc ∨
      ∃ i ∈ tis, (findTIGo tis now acc).1 = some i ∧ i.ts ≤ now := by
  induction tis generalizing acc with
  | nil => left; rfl
  | cons a rest ih =>
      by_cases ha : a.ts ≤ now
      · have hstep : findTIGo (a :: rest) now acc = findTIGo rest now (some a) := by
          simp [findTIGo, ha]
        rcases ih (some a) with h | ⟨i, hi, hh, hle⟩
        · right
          exact ⟨a, List.mem_cons_self a rest, by rw [hstep, h], ha⟩
        · right
          exact ⟨i, List.mem_cons_of_mem a hi, by rw [hstep]; exact hh, hle⟩
      · have hstep : findTIGo (a :: rest) now acc = (acc, some a) := by
          simp [findTIGo, ha]
        left
        rw [hstep]

/-- The `next` returned by the scan, when present, is an interval with
timestamp strictly after `now`. -/
lemma findTIGo_snd_spec (tis : List TimeInterval) (now : ℚ)
    (acc : Option TimeInterval) :
    (findTIGo tis now acc).2 = none ∨
      ∃ i ∈ tis, (findTIGo tis now acc).2 = some i ∧ now < i.ts := by
  induction tis generalizing acc with
  | nil => left; rfl
  | cons a rest ih =>
      by_cases ha : a.ts ≤ now
      · have hstep : findTIGo (a :: rest) now acc = findTIGo rest now (some a) := by
          simp [findTIGo, ha]
        rcases ih (some a) with h | ⟨i, hi, hh, hlt⟩
        · left
          rw [hstep, h]
        · right
          exact ⟨i, List.mem_cons_of_mem a hi, by rw [hstep]; exact hh, hlt⟩
      · have hstep : findTIGo (a :: rest) now acc = (acc, some a) := by
          simp [findTIGo, ha]
        right
        exact ⟨a, List.mem_cons_self a rest, by rw [hstep], not_le.1 ha⟩

/-- Once the accumulator is set, the scan never returns an empty `prev`. -/
lemma findTIGo_acc_some (tis : List TimeInterval) (now : ℚ)
    (x : TimeInterval) : (findTIGo tis now (some x)).1 ≠ none := by
  induction tis generalizing x with
  | nil => simp [findTIGo]
  | cons a rest ih =>
      by_cases ha : a.ts ≤ now
      · simpa [findTIGo, ha] using ih a
      · simp [findTIGo, ha]

/-- On a non-empty interval list, the scan returns a `prev` or a `next`. -/
lemma findTIGo_not_both_none (tis : List TimeInterval) (now : ℚ)
    (h : tis ≠ []) :
    ¬((findTIGo tis now none).1 = none ∧ (findTIGo tis now none).2 = none) := by
  rcases tis with _ | ⟨a, rest⟩
  · exact absurd rfl h
  · by_cases ha : a.ts ≤ now
    · have hstep : findTIGo (a :: rest) now none = findTIGo rest now (some a) := by
        simp [findTIGo, ha]
      rw [hstep]
      rintro ⟨h1, _⟩
      exact findTIGo_acc_some rest now a h1
    · have hstep : findTIGo (a :: rest) now none = (none, some a) := by
        simp [findTIGo, ha]
      rw [hstep]
      simp

/-- C8: on a non-empty path with all interval fractions in `[0,1]`, the
interpolator always produces a position — every array access it performs is
within the path's bounds, for any query time. -/
theorem c8_interpolation_index_safety (coords : List (ℚ × ℚ))
    (tis : List TimeInterval) (now : ℚ) (hc : coords ≠ []) (ht : tis ≠ [])
    (hf : ∀ i ∈ tis, 0 ≤ i.frac ∧ i.frac ≤ 1) :
    ∃ pos, interpolatePosition coords tis now = some pos := by
  rcases tis with _ | ⟨a, rest⟩
  · exact absurd rfl ht
  have hfst := findTIGo_fst_spec (a :: rest) now none
  have hsnd := findTIGo_snd_spec (a :: rest) now none
  simp only [interpolatePosition]
  rcases hfind : findTimeIntervals (a :: rest) now with ⟨p, n⟩
  rw [show findTimeIntervals (a :: rest) now = findTIGo (a :: rest) now none
    from rfl] at hfind
  rw [hfind] at hfst hsnd
  rcases p with _ | prev
  · rcases n with _ | next
    · exfalso
      have hboth := findTIGo_not_both_none (a :: rest) now (by simp)
      rw [hfind] at hboth
      exact hboth ⟨rfl, rfl⟩
    · have hmem : next ∈ a :: rest := by
        rcases hsnd with h | ⟨i, hi, he, _⟩
        · simp at h
        · simp only [Option.some.injEq] at he
          rwa [he]
      obtain ⟨h0, h1⟩ := hf next hmem
      exact getPositionAtFraction_isSome coords next.frac next.heading hc h0 h1
  · rcases n with _ | next
    · have hmem : prev ∈ a :: rest := by
        rcases hfst with h | ⟨i, hi, he, _⟩
        · simp at h
        · simp only [Option.some.injEq] at he
          rwa [he]
      obtain ⟨h0, h1⟩ := hf prev hmem
      exact getPositionAtFraction_isSome coords prev.frac prev.heading hc h0 h1
    · obtain ⟨hpmem, hple⟩ : prev ∈ a :: rest ∧ prev.ts ≤ now := by
        rcases hfst with h | ⟨i, hi, he, hle⟩
        · simp at h
        · simp only [Option.some.injEq] at he
          rw [he]
          exact ⟨hi, hle⟩
      obtain ⟨hnmem, hnlt⟩ : next ∈ a :: rest ∧ now < next.ts := by
        rcases hsnd with h | ⟨i, hi, he, hlt⟩
        · simp at h
        · simp only [Option.some.injEq] at he
          rw [he]
          exact ⟨hi, hlt⟩
      obtain ⟨hp0, hp1⟩ := hf prev hpmem
      obtain ⟨hn0, hn1⟩ := hf next hnmem
      exact interpolateBetweenIntervals_isSome coords prev next now hc
        hp0 hp1 hn0 hn1 hple hnlt

/-- C8 witness: a concrete one-interval trajectory yields a position at an
arbitrary query time. -/
theorem c8_interpolation_index_safety_witness :
    ∃ pos, interpolatePosition [((0 : ℚ), (0 : ℚ)), (1, 1)]
      [⟨0, 1 / 2, 0⟩] 5 = some pos :=
  c8_interpolation_index_safety [((0 : ℚ), (0 : ℚ)), (1, 1)] [⟨0, 1 / 2, 0⟩] 5
    (by simp) (by simp) (by intro i hi; fin_cases hi <;> constructor <;> norm_num)
